import Mathlib

/-!
Shallow embedding of the fs-webp-converter core (src/app/routes/home.tsx):
extension helpers, the bounded conversion log, the permission gate, the
directory scanner, the canvas conversion step and the batch conversion
pipeline, together with theorems checking the design document's claims.
Asynchronous browser collaborators (file system handles, canvas, permission
prompts) are modelled as explicit environments whose responses are pure
functions, and the side effects the code performs are recorded as an
explicit effect trace.
-/

namespace FsWebp

/-- Result of `File.getFile()`: the metadata the scanner and pipeline read
(`type`, `size`, `lastModified`). -/
structure JsFile where
  type : String
  size : Nat
  lastModified : Int
  deriving DecidableEq, Repr

/-- `ImageEntry` from home.tsx: `{ name, handle, size, type, lastModified }`.
The opaque `FileSystemFileHandle` is modelled by the `JsFile` it yields. -/
structure ImageEntry where
  name : String
  handle : JsFile
  size : Nat
  type : String
  lastModified : Int
  deriving DecidableEq, Repr

/-- `SUPPORTED_MIME_TYPES = new Set(["image/png", "image/webp"])`. -/
def SUPPORTED_MIME_TYPES : List String := ["image/png", "image/webp"]

/-- The two `ConversionDirection` string literals. -/
inductive ConversionDirection
  | pngToWebp
  | webpToPng
  deriving DecidableEq, Repr

/-- One row of `DIRECTION_CONFIG`. -/
structure DirectionConfig where
  sourceExt : String
  targetExt : String
  mime : String
  label : String
  deriving DecidableEq, Repr

/-- `DIRECTION_CONFIG` from home.tsx. -/
def DIRECTION_CONFIG : ConversionDirection → DirectionConfig
  | .pngToWebp => ⟨".png", ".webp", "image/webp", "PNG → WebP"⟩
  | .webpToPng => ⟨".webp", ".png", "image/png", "WebP → PNG"⟩

/-- JS `name.toLowerCase()`, modelled characterwise. -/
def toLowerCase (s : String) : String :=
  String.mk (s.toList.map Char.toLower)

/-- JS `s.endsWith(post)`, modelled as a character-suffix test. -/
def endsWithJs (s post : String) : Bool :=
  List.isSuffixOf post.toList s.toList

/-- `hasExtension(name, extension) = name.toLowerCase().endsWith(extension)`. -/
def hasExtension (name extension : String) : Bool :=
  endsWithJs (toLowerCase name) extension

/-- The prefix of the character list that precedes its LAST `'.'`, or `none`
when no `'.'` occurs: this is `fileName.slice(0, fileName.lastIndexOf("."))`
of home.tsx, with the `-1` outcome as `none`. -/
def stemBeforeLastDot : List Char → Option (List Char)
  | [] => none
  | c :: rest =>
    match stemBeforeLastDot rest with
    | some s => some (c :: s)
    | none => if c = '.' then some [] else none

/-- `replaceExtension(fileName, nextExtension)` from home.tsx: replace
everything from the last dot on by `nextExtension`; append when no dot. -/
def replaceExtension (fileName nextExtension : String) : String :=
  match stemBeforeLastDot fileName.toList with
  | none => fileName ++ nextExtension
  | some stem => String.mk stem ++ nextExtension

/-- `appendLog(entry)`: `setLogs((prev) => [entry, ...prev].slice(0, 20))`. -/
def appendLog (prev : List String) (entry : String) : List String :=
  (entry :: prev).take 20

lemma stemBeforeLastDot_eq_none {cs : List Char} (h : '.' ∉ cs) :
    stemBeforeLastDot cs = none := by
  induction cs with
  | nil => rfl
  | cons c rest ih =>
    simp only [List.mem_cons, not_or] at h
    rw [stemBeforeLastDot, ih h.2, if_neg (fun hc => h.1 hc.symm)]

lemma stemBeforeLastDot_append_dot (stem : List Char) {ext : List Char}
    (h : '.' ∉ ext) :
    stemBeforeLastDot (stem ++ '.' :: ext) = some stem := by
  induction stem with
  | nil => rw [List.nil_append, stemBeforeLastDot, stemBeforeLastDot_eq_none h, if_pos rfl]
  | cons c rest ih => rw [List.cons_append, stemBeforeLastDot, ih]

lemma string_toList_append (a b : String) : (a ++ b).toList = a.toList ++ b.toList :=
  rfl

lemma string_mk_toList (s : String) : String.mk s.toList = s :=
  rfl

/-- C5: the target name is the source name with its suffix (from the last
dot) replaced by the target suffix; with no dot the suffix is appended to
the whole name; the spec's two concrete examples hold. -/
theorem replaceExtension_replaces_suffix :
    (∀ name next : String, '.' ∉ name.toList →
      replaceExtension name next = name ++ next) ∧
    (∀ stem ext next : String, '.' ∉ ext.toList →
      replaceExtension (stem ++ "." ++ ext) next = stem ++ next) ∧
    replaceExtension "photo.png" ".webp" = "photo.webp" ∧
    replaceExtension "noext" ".webp" = "noext.webp" := by
  refine ⟨fun name next h => ?_, fun stem ext next h => ?_, by decide, by decide⟩
  · rw [replaceExtension, stemBeforeLastDot_eq_none h]
  · have htl : (stem ++ "." ++ ext).toList = stem.toList ++ '.' :: ext.toList := by
      rw [string_toList_append, string_toList_append, List.append_assoc]; rfl
    rw [replaceExtension, htl, stemBeforeLastDot_append_dot _ h]
    rfl

/-- Closed instance of `replaceExtension_replaces_suffix`, discharging its
hypotheses at the spec's two example names. -/
theorem replaceExtension_replaces_suffix_witness :
    replaceExtension "noext" ".webp" = "noext" ++ ".webp" ∧
    replaceExtension ("photo" ++ "." ++ "png") ".webp" = "photo" ++ ".webp" :=
  ⟨replaceExtension_replaces_suffix.1 "noext" ".webp" (by decide),
   replaceExtension_replaces_suffix.2.1 "photo" "png" ".webp" (by decide)⟩

/-- C9: after every append the new entry is first, the log holds at most 20
entries, and position `i` of the new log is position `i` of the untruncated
newest-first list when `i < 20` and empty otherwise. -/
theorem appendLog_newest_first_bounded :
    ∀ (prev : List String) (entry : String),
      (appendLog prev entry).head? = some entry ∧
      (appendLog prev entry).length ≤ 20 ∧
      ∀ i : Nat, (appendLog prev entry)[i]? =
        if i < 20 then (entry :: prev)[i]? else none := by
  intro prev entry
  refine ⟨by rw [appendLog, List.take_succ_cons]; rfl, ?_, fun i => ?_⟩
  · rw [appendLog, List.length_take]
    exact Nat.min_le_left _ _
  · by_cases hi : i < 20
    · rw [appendLog, List.getElem?_take_of_lt hi, if_pos hi]
    · rw [if_neg hi, List.getElem?_eq_none]
      rw [appendLog, List.length_take]
      exact le_trans (Nat.min_le_left _ _) (Nat.le_of_not_lt hi)

/-- The three `PermissionState` values of the File System Access API. -/
inductive PermissionState
  | granted
  | denied
  | prompt
  deriving DecidableEq, Repr

/-- `PermissionMode = "read" | "readwrite"`. -/
inductive PermissionMode
  | read
  | readwrite
  deriving DecidableEq, Repr

/-- One observable side effect of the pipeline: a permission query, an
interactive permission request, a `getFile()` read, or a file write. -/
inductive Effect
  | queryPerm (mode : PermissionMode)
  | requestPerm (mode : PermissionMode)
  | readFile (name : String)
  | writeFile (name : String) (size : Nat)
  deriving DecidableEq, Repr

/-- Number of interactive permission requests in an effect trace. -/
def countRequests (effects : List Effect) : Nat :=
  effects.countP fun e => match e with | .requestPerm _ => true | _ => false

/-- Number of file reads (`getFile()` calls) in an effect trace. -/
def countReads (effects : List Effect) : Nat :=
  effects.countP fun e => match e with | .readFile _ => true | _ => false

/-- Number of file writes in an effect trace. -/
def countWrites (effects : List Effect) : Nat :=
  effects.countP fun e => match e with | .writeFile _ _ => true | _ => false

/-- `PermissionCapableHandle`: a directory handle whose optional
`queryPermission` / `requestPermission` methods are modelled as optional
pure response functions of the requested mode. -/
structure PermissionCapableHandle where
  queryPermission : Option (PermissionMode → PermissionState)
  requestPermission : Option (PermissionMode → PermissionState)

/-- `ensurePermission(handle, mode)` from home.tsx, returning the boolean
result together with the trace of permission effects it performed: implicit
grant when either method is missing, else query once, short-circuit on
granted/denied, otherwise request once. -/
def ensurePermission (handle : PermissionCapableHandle) (mode : PermissionMode) :
    Bool × List Effect :=
  match handle.queryPermission, handle.requestPermission with
  | some query, some request =>
    match query mode with
    | .granted => (true, [.queryPerm mode])
    | .denied => (false, [.queryPerm mode])
    | .prompt => (request mode == PermissionState.granted,
        [.queryPerm mode, .requestPerm mode])
  | _, _ => (true, [])

/-- C3: on a handle exposing both permission methods, a granted query state
returns true with no interactive request, a denied query state returns false
with no interactive request, and a prompt query state issues exactly one
interactive request and succeeds iff the user grants it. -/
theorem ensurePermission_query_protocol :
    ∀ (query request : PermissionMode → PermissionState) (mode : PermissionMode),
      (query mode = .granted →
        ensurePermission ⟨some query, some request⟩ mode = (true, [.queryPerm mode])) ∧
      (query mode = .denied →
        ensurePermission ⟨some query, some request⟩ mode = (false, [.queryPerm mode])) ∧
      (query mode = .prompt →
        countRequests (ensurePermission ⟨some query, some request⟩ mode).2 = 1 ∧
        ((ensurePermission ⟨some query, some request⟩ mode).1 = true ↔
          request mode = .granted)) := by
  intro query request mode
  refine ⟨fun hq => ?_, fun hq => ?_, fun hq => ?_⟩
  · simp [ensurePermission, hq]
  · simp [ensurePermission, hq]
  · constructor
    · simp [ensurePermission, hq, countRequests]
    · simp [ensurePermission, hq]

/-- Closed instance of `ensurePermission_query_protocol` at three concrete
handles, one per queried permission state. -/
theorem ensurePermission_query_protocol_witness :
    ensurePermission ⟨some fun _ => .granted, some fun _ => .denied⟩ .readwrite =
      (true, [.queryPerm .readwrite]) ∧
    ensurePermission ⟨some fun _ => .denied, some fun _ => .granted⟩ .readwrite =
      (false, [.queryPerm .readwrite]) ∧
    (countRequests (ensurePermission
        ⟨some fun _ => .prompt, some fun _ => .granted⟩ .readwrite).2 = 1 ∧
      ((ensurePermission
        ⟨some fun _ => .prompt, some fun _ => .granted⟩ .readwrite).1 = true ↔
        (fun _ => PermissionState.granted) PermissionMode.readwrite = .granted)) :=
  ⟨(ensurePermission_query_protocol _ _ _).1 rfl,
   (ensurePermission_query_protocol _ _ _).2.1 rfl,
   (ensurePermission_query_protocol _ _ _).2.2 rfl⟩

/-- C10: whenever either permission method is missing — in particular
whenever `requestPermission` is not a function, even if `queryPermission`
exists and would report denied — `ensurePermission` returns true with no
permission effect at all; and the implicit-grant fallback (empty effect
trace) happens exactly when one of the two methods is missing. -/
theorem ensurePermission_implicit_grant_fallback :
    ∀ (handle : PermissionCapableHandle) (mode : PermissionMode),
      (handle.queryPermission = none ∨ handle.requestPermission = none →
        ensurePermission handle mode = (true, [])) ∧
      ((ensurePermission handle mode).2 = [] ↔
        (handle.queryPermission = none ∨ handle.requestPermission = none)) := by
  intro handle mode
  obtain ⟨q, r⟩ := handle
  cases q with
  | none =>
    cases r with
    | none => exact ⟨fun _ => rfl, by simp [ensurePermission]⟩
    | some r => exact ⟨fun _ => rfl, by simp [ensurePermission]⟩
  | some q =>
    cases r with
    | none => exact ⟨fun _ => rfl, by simp [ensurePermission]⟩
    | some r =>
      constructor
      · rintro (hq | hr) <;> simp_all
      · simp only [ensurePermission]
        cases hq : q mode <;> simp

/-- Closed instance of `ensurePermission_implicit_grant_fallback`: a handle
with a denied-reporting `queryPermission` but no `requestPermission` is
implicitly granted readwrite access without a query. -/
theorem ensurePermission_implicit_grant_fallback_witness :
    ensurePermission ⟨some fun _ => .denied, none⟩ .readwrite = (true, []) :=
  (ensurePermission_implicit_grant_fallback ⟨some fun _ => .denied, none⟩ .readwrite).1
    (Or.inr rfl)

/-- A `Blob`: only its byte size is observable to the pipeline. -/
structure Blob where
  size : Nat
  deriving DecidableEq, Repr

/-- `RasterizedSource` dimensions; its `draw` and `cleanup` closures are
modelled as recorded effects. -/
structure RasterizedSource where
  width : Nat
  height : Nat
  deriving DecidableEq, Repr

/-- Observable actions of `convertWithCanvas` on its raster source and
canvas: drawing, one serialization attempt, and `source.cleanup()`. -/
inductive CanvasEffect
  | draw
  | encode (mime : String) (quality : Option ℚ)
  | cleanup
  deriving DecidableEq, Repr

/-- Number of `source.cleanup()` invocations in a canvas effect trace. -/
def countCleanups (effects : List CanvasEffect) : Nat :=
  effects.countP fun e => match e with | .cleanup => true | _ => false

/-- The third argument of `canvas.toBlob`:
`mimeType === "image/webp" ? 0.92 : undefined`; the 0.92 float literal is
modelled as the rational 92/100. -/
def toBlobQualityArg (mimeType : String) : Option ℚ :=
  if mimeType = "image/webp" then some (92 / 100) else none

/-- `canvasToBlob`: resolves with the blob handed to the callback, rejects
when the canvas yields no data (`blob` falsy). -/
def canvasToBlob (produced : Option Blob) (mimeType : String) : Except String Blob :=
  match produced with
  | some blob => .ok blob
  | none => .error "Canvas から Blob を生成できませんでした。"

/-- Responses of the browser environment during one `convertWithCanvas`
call: the outcome of `rasterize(file)`, whether `canvas.getContext("2d")`
yields a context, and the blob (or null) the canvas serialization yields. -/
structure CanvasEnv where
  rasterizeResult : Except String RasterizedSource
  getContext : Option Unit
  producedBlob : Option Blob

/-- `convertWithCanvas(file, mimeType)` from home.tsx with its effect
trace: a rasterize failure propagates before any source exists; a missing
2d context cleans up and throws; otherwise the source is drawn, the canvas
is serialized, and — only when serialization succeeds — `source.cleanup()`
runs before the blob is returned (a rejection of `canvasToBlob` propagates
past the cleanup call). -/
def convertWithCanvas (env : CanvasEnv) (mimeType : String) :
    Except String Blob × List CanvasEffect :=
  match env.rasterizeResult with
  | .error m => (.error m, [])
  | .ok _source =>
    match env.getContext with
    | none => (.error "Canvas コンテキストを初期化できませんでした。", [.cleanup])
    | some _ =>
      match canvasToBlob env.producedBlob mimeType with
      | .error m => (.error m, [.draw, .encode mimeType (toBlobQualityArg mimeType)])
      | .ok blob =>
        (.ok blob, [.draw, .encode mimeType (toBlobQualityArg mimeType), .cleanup])

/-- C8: every serialization attempt uses exactly the requested MIME type
with quality `0.92` for image/webp and no quality parameter otherwise (in
particular for image/png), and serialization that yields no data fails with
an error instead of returning empty output. -/
theorem canvasToBlob_quality_and_failure :
    (∀ (env : CanvasEnv) (mimeType m : String) (q : Option ℚ),
      CanvasEffect.encode m q ∈ (convertWithCanvas env mimeType).2 →
      m = mimeType ∧ q = toBlobQualityArg mimeType) ∧
    toBlobQualityArg "image/webp" = some (92 / 100 : ℚ) ∧
    toBlobQualityArg "image/png" = none ∧
    (∀ mimeType : String, canvasToBlob none mimeType =
      .error "Canvas から Blob を生成できませんでした。") ∧
    (∀ (blob : Blob) (mimeType : String), canvasToBlob (some blob) mimeType = .ok blob) := by
  refine ⟨?_, rfl, rfl, fun _ => rfl, fun _ _ => rfl⟩
  intro env mimeType m q hm
  obtain ⟨rast, ctx, produced⟩ := env
  cases rast with
  | error e => simp [convertWithCanvas] at hm
  | ok src =>
    cases ctx with
    | none => simp [convertWithCanvas] at hm
    | some u =>
      cases produced with
      | none =>
        simp only [convertWithCanvas, canvasToBlob, List.mem_cons,
          List.not_mem_nil, or_false] at hm
        rcases hm with hm | hm
        · exact absurd hm (by simp)
        · exact ⟨by injection hm, by injection hm⟩
      | some blob =>
        simp only [convertWithCanvas, canvasToBlob, List.mem_cons,
          List.not_mem_nil, or_false] at hm
        rcases hm with hm | hm | hm
        · exact absurd hm (by simp)
        · exact ⟨by injection hm, by injection hm⟩
        · exact absurd hm (by simp)

/-- Closed instance of `canvasToBlob_quality_and_failure`, discharging its
effect-membership hypothesis on a concrete successful conversion. -/
theorem canvasToBlob_quality_and_failure_witness :
    "image/webp" = "image/webp" ∧
    toBlobQualityArg "image/webp" = toBlobQualityArg "image/webp" :=
  canvasToBlob_quality_and_failure.1 ⟨Except.ok ⟨10, 10⟩, some (), some ⟨5⟩⟩
    "image/webp" "image/webp" (toBlobQualityArg "image/webp")
    (by simp [convertWithCanvas, canvasToBlob])

/-- C7 (code bug): with a successfully produced raster source, the code
cleans up exactly once on the success path and on the missing-context path,
but zero times when canvas serialization fails — `await canvasToBlob(...)`
throws past the `source.cleanup()` call, leaking the decode resource. -/
theorem convertWithCanvas_cleanup_skipped_on_encode_failure :
    countCleanups (convertWithCanvas ⟨.ok ⟨10, 10⟩, some (), some ⟨42⟩⟩ "image/webp").2 = 1 ∧
    countCleanups (convertWithCanvas ⟨.ok ⟨10, 10⟩, none, some ⟨42⟩⟩ "image/webp").2 = 1 ∧
    countCleanups (convertWithCanvas ⟨.ok ⟨10, 10⟩, some (), none⟩ "image/webp").2 = 0 := by
  decide

/-- One direct child yielded by `handle.entries()`: a file child together
with the `File` its handle's `getFile()` yields, or a subdirectory. -/
inductive DirChild
  | file (name : String) (f : JsFile)
  | subdir (name : String)
  deriving DecidableEq, Repr

/-- The `ImageEntry` record pushed for a kept file child. -/
def imageEntryOfFile (name : String) (f : JsFile) : ImageEntry :=
  { name := name, handle := f, size := f.size, type := f.type,
    lastModified := f.lastModified }

/-- The enumeration loop of `collectImageEntries`: skip non-file children,
read the file, skip files whose MIME type is not in `SUPPORTED_MIME_TYPES`. -/
def collectUnsorted : List DirChild → List ImageEntry
  | [] => []
  | .subdir _ :: rest => collectUnsorted rest
  | .file name f :: rest =>
    if f.type ∈ SUPPORTED_MIME_TYPES then
      imageEntryOfFile name f :: collectUnsorted rest
    else collectUnsorted rest

/-- `collectImageEntries(handle)` from home.tsx: the kept entries sorted
with `(a, b) => a.name.localeCompare(b.name)`. The locale-aware comparator
is an external collaborator and is passed in as the integer-valued function
`lc`; the sort keeps `a` before `b` when `lc a.name b.name ≤ 0`. -/
def collectImageEntries (lc : String → String → Int) (children : List DirChild) :
    List ImageEntry :=
  (collectUnsorted children).insertionSort fun a b => lc a.name b.name ≤ 0

lemma mem_collectUnsorted {e : ImageEntry} {children : List DirChild}
    (he : e ∈ collectUnsorted children) :
    e.type ∈ SUPPORTED_MIME_TYPES ∧
      ∃ f, DirChild.file e.name f ∈ children ∧ e = imageEntryOfFile e.name f := by
  induction children with
  | nil => exact absurd he (List.not_mem_nil e)
  | cons child rest ih =>
    cases child with
    | subdir name =>
      obtain ⟨hty, f, hf, hef⟩ := ih he
      exact ⟨hty, f, List.mem_cons_of_mem _ hf, hef⟩
    | file name f =>
      rw [collectUnsorted] at he
      by_cases hty : f.type ∈ SUPPORTED_MIME_TYPES
      · rw [if_pos hty] at he
        rcases List.mem_cons.mp he with hef | he'
        · subst hef
          exact ⟨hty, f, List.mem_cons_self _ _, rfl⟩
        · obtain ⟨hty', f', hf', hef'⟩ := ih he'
          exact ⟨hty', f', List.mem_cons_of_mem _ hf', hef'⟩
      · rw [if_neg hty] at he
        obtain ⟨hty', f', hf', hef'⟩ := ih he
        exact ⟨hty', f', List.mem_cons_of_mem _ hf', hef'⟩

/-- C4: for any locale comparator that is total and transitive, the scan
result is sorted by name ascending under that comparator, contains no entry
whose MIME type is outside {image/png, image/webp}, and every entry stems
from a file child of the directory (subdirectories contribute nothing). -/
theorem collectImageEntries_sorted_and_filtered :
    ∀ (lc : String → String → Int) (children : List DirChild),
      (∀ a b, lc a b ≤ 0 ∨ lc b a ≤ 0) →
      (∀ a b c, lc a b ≤ 0 → lc b c ≤ 0 → lc a c ≤ 0) →
      List.Sorted (fun a b : ImageEntry => lc a.name b.name ≤ 0)
        (collectImageEntries lc children) ∧
      (∀ e ∈ collectImageEntries lc children,
        e.type = "image/png" ∨ e.type = "image/webp") ∧
      (∀ e ∈ collectImageEntries lc children,
        ∃ f, DirChild.file e.name f ∈ children ∧ e = imageEntryOfFile e.name f) := by
  intro lc children htot htrans
  haveI : IsTotal ImageEntry (fun a b => lc a.name b.name ≤ 0) :=
    ⟨fun a b => htot a.name b.name⟩
  haveI : IsTrans ImageEntry (fun a b => lc a.name b.name ≤ 0) :=
    ⟨fun a b c => htrans a.name b.name c.name⟩
  refine ⟨List.sorted_insertionSort _ _, fun e he => ?_, fun e he => ?_⟩
  · rw [collectImageEntries, List.mem_insertionSort] at he
    have hty := (mem_collectUnsorted he).1
    simpa [SUPPORTED_MIME_TYPES] using hty
  · rw [collectImageEntries, List.mem_insertionSort] at he
    exact (mem_collectUnsorted he).2

/-- The constant locale comparator used by the closed scanner instance. -/
def lcConst : String → String → Int := fun _ _ => 0

/-- Concrete directory contents used by the closed scanner instance: a kept
PNG file, a subdirectory, and a file with an unsupported MIME type. -/
def scanChildrenExample : List DirChild :=
  [.file "b.png" ⟨"image/png", 3, 0⟩, .subdir "nested",
   .file "a.txt" ⟨"text/plain", 7, 0⟩]

/-- Closed instance of `collectImageEntries_sorted_and_filtered`,
discharging totality and transitivity of a concrete comparator. -/
theorem collectImageEntries_sorted_and_filtered_witness :
    List.Sorted (fun a b : ImageEntry => lcConst a.name b.name ≤ 0)
      (collectImageEntries lcConst scanChildrenExample) ∧
    (∀ e ∈ collectImageEntries lcConst scanChildrenExample,
      e.type = "image/png" ∨ e.type = "image/webp") ∧
    (∀ e ∈ collectImageEntries lcConst scanChildrenExample,
      ∃ f, DirChild.file e.name f ∈ scanChildrenExample ∧
        e = imageEntryOfFile e.name f) :=
  collectImageEntries_sorted_and_filtered lcConst scanChildrenExample
    (fun _ _ => Or.inl (Int.le_refl 0)) (fun _ _ _ _ _ => Int.le_refl 0)

/-- `formatBytes(size)` from home.tsx: exact bytes below 1 KiB, otherwise
repeated division by 1024 through KB/MB/GB. `Number.isFinite` always holds
for a natural size, so the `"-"` branch cannot trigger; the floating-point
division and `toFixed(1)` are modelled with exact rationals, `toFixed(1)`
as rounding to the nearest tenth. -/
def toFixed1 (q : ℚ) : String :=
  let n : ℤ := ⌊q * 10 + 1 / 2⌋
  toString (n / 10) ++ "." ++ toString (n % 10)

/-- The byte-size rendering of home.tsx; the 3-step unit loop is unrolled
(it runs at most twice because `unitIndex < units.length - 1` bounds it). -/
def formatBytes (size : Nat) : String :=
  if size < 1024 then toString size ++ " B"
  else
    let units := ["KB", "MB", "GB"]
    let value0 : ℚ := (size : ℚ) / 1024
    let p1 := if value0 ≥ 1024 ∧ 0 < units.length - 1 then
        ((value0 / 1024 : ℚ), 1) else (value0, 0)
    let p2 := if p1.1 ≥ 1024 ∧ p1.2 < units.length - 1 then
        ((p1.1 / 1024 : ℚ), p1.2 + 1) else p1
    toFixed1 p2.1 ++ " " ++ units.getD p2.2 ""

/-- The external collaborators of one `handleConversion` run: the chosen
directory handle's permission methods, the `getFile()` outcome per entry
name, the canvas environment each read file produces, and the
create-writable/write/close outcome per target name. -/
structure ConvEnv where
  handle : PermissionCapableHandle
  getFile : String → Except String JsFile
  canvasEnv : JsFile → CanvasEnv
  write : String → Blob → Except String Unit

/-- The try-block body of the conversion loop for one candidate: read the
file, convert via the canvas, derive the target name with
`replaceExtension`, create and write the target file. The effect trace
records the read attempt and any write attempt. -/
def processEntry (env : ConvEnv) (config : DirectionConfig) (candidate : ImageEntry) :
    Except String (String × Blob) × List Effect :=
  match env.getFile candidate.name with
  | .error m => (.error m, [.readFile candidate.name])
  | .ok file =>
    match (convertWithCanvas (env.canvasEnv file) config.mime).1 with
    | .error m => (.error m, [.readFile candidate.name])
    | .ok blob =>
      let newName := replaceExtension candidate.name config.targetExt
      match env.write newName blob with
      | .error m =>
        (.error m, [.readFile candidate.name, .writeFile newName blob.size])
      | .ok _ =>
        (.ok (newName, blob), [.readFile candidate.name, .writeFile newName blob.size])

/-- The log line the loop appends for one candidate: the success line with
derived name and formatted output size, or the failure line with the
caught error's message. -/
def entryLine (env : ConvEnv) (config : DirectionConfig) (candidate : ImageEntry) :
    String :=
  match processEntry env config candidate with
  | (.ok (newName, blob), _) =>
    "✔ " ++ candidate.name ++ " → " ++ newName ++ " (" ++ formatBytes blob.size ++ ")"
  | (.error m, _) => "✖ " ++ candidate.name ++ ": " ++ m

/-- Final observable state of one `handleConversion` call. -/
structure ConvResult where
  status : Option String
  logs : List String
  effects : List Effect
  isConverting : Bool
  deriving DecidableEq, Repr

/-- `handleConversion(direction)` from home.tsx, given the scanned
inventory and the current log list: filter the inventory to matching
suffixes; an empty match set stops with the no-targets status before any
permission prompt; a denied readwrite permission stops with the
grant-write status; otherwise each target is processed sequentially, one
success or failure line is appended per target, and the run finishes with
the completion status. The trailing `refreshDirectory()` rescan is the
separate scan operation and lies outside this step. -/
def handleConversion (env : ConvEnv) (images : List ImageEntry)
    (direction : ConversionDirection) (logs0 : List String) : ConvResult :=
  let config := DIRECTION_CONFIG direction
  let targets := images.filter fun file => hasExtension file.name config.sourceExt
  if targets.isEmpty then
    { status := some "対象ファイルが見つかりませんでした。", logs := logs0,
      effects := [], isConverting := false }
  else
    let perm := ensurePermission env.handle .readwrite
    if perm.1 = false then
      { status := some "書き込み権限を付与してください。", logs := logs0,
        effects := perm.2, isConverting := false }
    else
      let final := targets.foldl
        (fun acc candidate =>
          (appendLog acc.1 (entryLine env config candidate),
           acc.2 ++ (processEntry env config candidate).2))
        (logs0, perm.2)
      { status := some "変換が完了しました。", logs := final.1,
        effects := final.2, isConverting := false }

lemma take_append_take (a b : List String) (n : Nat) :
    (a ++ b.take n).take n = (a ++ b).take n := by
  rw [List.take_append_eq_append_take, List.take_append_eq_append_take,
    List.take_take, Nat.min_eq_left (Nat.sub_le n a.length)]

lemma foldl_appendLog_of_le (line : ImageEntry → String) :
    ∀ (ts : List ImageEntry) (logs0 : List String), logs0.length ≤ 20 →
      ts.foldl (fun l c => appendLog l (line c)) logs0 =
        ((ts.map line).reverse ++ logs0).take 20 := by
  intro ts
  induction ts with
  | nil =>
    intro logs0 h
    simp [List.take_of_length_le h]
  | cons c cs ih =>
    intro logs0 h
    rw [List.foldl_cons,
      ih _ (by rw [appendLog, List.length_take]; exact Nat.min_le_left _ _),
      appendLog, take_append_take, List.map_cons, List.reverse_cons,
      List.append_assoc]
    rfl

lemma foldl_appendLog_cons (line : ImageEntry → String) (t : ImageEntry)
    (ts : List ImageEntry) (logs0 : List String) :
    (t :: ts).foldl (fun l c => appendLog l (line c)) logs0 =
      (((t :: ts).map line).reverse ++ logs0).take 20 := by
  rw [List.foldl_cons,
    foldl_appendLog_of_le line ts (appendLog logs0 (line t))
      (by rw [appendLog, List.length_take]; exact Nat.min_le_left _ _),
    appendLog, take_append_take, List.map_cons, List.reverse_cons,
    List.append_assoc]
  rfl

lemma handleConversion_foldl_fst (env : ConvEnv) (config : DirectionConfig) :
    ∀ (ts : List ImageEntry) (l : List String) (e : List Effect),
      (ts.foldl
        (fun acc candidate =>
          (appendLog acc.1 (entryLine env config candidate),
           acc.2 ++ (processEntry env config candidate).2)) (l, e)).1 =
      ts.foldl (fun l c => appendLog l (entryLine env config c)) l := by
  intro ts
  induction ts with
  | nil => intro l e; rfl
  | cons c cs ih => intro l e; rw [List.foldl_cons, List.foldl_cons]; exact ih _ _

lemma ensurePermission_effects_perm_only (handle : PermissionCapableHandle)
    (mode : PermissionMode) :
    countReads (ensurePermission handle mode).2 = 0 ∧
      countWrites (ensurePermission handle mode).2 = 0 := by
  obtain ⟨q, r⟩ := handle
  cases q with
  | none => cases r <;> exact ⟨rfl, rfl⟩
  | some q =>
    cases r with
    | none => exact ⟨rfl, rfl⟩
    | some r =>
      cases hq : q mode <;>
        simp [ensurePermission, hq, countReads, countWrites]

/-- C6: when no inventory entry matches the direction's source suffix, the
run stops at once with the no-targets status, performs no effect at all (no
permission query or prompt, no read, no write), and leaves the log
unchanged. -/
theorem handleConversion_no_targets :
    ∀ (env : ConvEnv) (images : List ImageEntry) (direction : ConversionDirection)
      (logs0 : List String),
      images.filter (fun file =>
        hasExtension file.name (DIRECTION_CONFIG direction).sourceExt) = [] →
      (handleConversion env images direction logs0).status =
        some "対象ファイルが見つかりませんでした。" ∧
      (handleConversion env images direction logs0).logs = logs0 ∧
      (handleConversion env images direction logs0).effects = [] := by
  intro env images direction logs0 h
  simp [handleConversion, h]

/-- C2: with a non-empty match set, a refused readwrite permission stops
the run with the grant-write failure status, reads no file, writes no file,
and leaves the log unchanged. -/
theorem handleConversion_denied_touches_nothing :
    ∀ (env : ConvEnv) (images : List ImageEntry) (direction : ConversionDirection)
      (logs0 : List String),
      images.filter (fun file =>
        hasExtension file.name (DIRECTION_CONFIG direction).sourceExt) ≠ [] →
      (ensurePermission env.handle .readwrite).1 = false →
      (handleConversion env images direction logs0).status =
        some "書き込み権限を付与してください。" ∧
      (handleConversion env images direction logs0).logs = logs0 ∧
      countReads (handleConversion env images direction logs0).effects = 0 ∧
      countWrites (handleConversion env images direction logs0).effects = 0 := by
  intro env images direction logs0 h1 h2
  obtain ⟨t, ts, hts⟩ := List.exists_cons_of_ne_nil h1
  have hro := ensurePermission_effects_perm_only env.handle .readwrite
  simp [handleConversion, hts, h2, hro.1, hro.2]

/-- A healthy PNG file used by the concrete batch scenario. -/
def pngFileOk : JsFile := ⟨"image/png", 100, 0⟩

/-- A corrupt PNG file: its bytes are not a decodable image. -/
def pngFileBad : JsFile := ⟨"image/png", 200, 0⟩

/-- Concrete environment for the partial-failure scenario: permission
granted, three readable PNG files of which `b.png` fails to rasterize,
writes always succeed. -/
def batchEnv : ConvEnv :=
  { handle := ⟨some fun _ => .granted, some fun _ => .granted⟩,
    getFile := fun name =>
      if name = "b.png" then .ok pngFileBad
      else if name = "a.png" ∨ name = "c.png" then .ok pngFileOk
      else .error "NotFoundError",
    canvasEnv := fun f =>
      if f = pngFileBad then ⟨.error "画像の読み込みに失敗しました。", some (), none⟩
      else ⟨.ok ⟨10, 10⟩, some (), some ⟨80⟩⟩,
    write := fun _ _ => .ok () }

/-- The scanned inventory of the partial-failure scenario: three matched
PNG files, the second of which is the corrupt one. -/
def batchImages : List ImageEntry :=
  [⟨"a.png", pngFileOk, 100, "image/png", 0⟩,
   ⟨"b.png", pngFileBad, 200, "image/png", 0⟩,
   ⟨"c.png", pngFileOk, 100, "image/png", 0⟩]

/-- C1: with a non-empty match set and granted permission the batch always
reaches the completion status — a failing entry is caught, not thrown — and
the final log is the newest-first sequence of exactly one line per matched
entry (success or failure) on top of the previous log, truncated to 20; in
particular the concrete 3-file batch whose 2nd file is corrupt yields
exactly 3 log entries, 2 successes and 1 failure, and completes. -/
theorem handleConversion_partial_failure_isolation :
    (∀ (env : ConvEnv) (images : List ImageEntry) (direction : ConversionDirection)
        (logs0 : List String),
      images.filter (fun file =>
        hasExtension file.name (DIRECTION_CONFIG direction).sourceExt) ≠ [] →
      (ensurePermission env.handle .readwrite).1 = true →
      (handleConversion env images direction logs0).status =
        some "変換が完了しました。" ∧
      (handleConversion env images direction logs0).logs =
        (((images.filter fun file =>
            hasExtension file.name (DIRECTION_CONFIG direction).sourceExt).map
          (entryLine env (DIRECTION_CONFIG direction))).reverse ++ logs0).take 20) ∧
    ((handleConversion batchEnv batchImages .pngToWebp []).logs.length = 3 ∧
      (handleConversion batchEnv batchImages .pngToWebp []).logs.countP
        (fun line => line.toList.head? == some '✔') = 2 ∧
      (handleConversion batchEnv batchImages .pngToWebp []).logs.countP
        (fun line => line.toList.head? == some '✖') = 1 ∧
      (handleConversion batchEnv batchImages .pngToWebp []).status =
        some "変換が完了しました。") := by
  constructor
  · intro env images direction logs0 h1 h2
    obtain ⟨t, ts, hts⟩ := List.exists_cons_of_ne_nil h1
    have hfold := handleConversion_foldl_fst env (DIRECTION_CONFIG direction)
      (t :: ts) logs0 (ensurePermission env.handle .readwrite).2
    have hlog := foldl_appendLog_cons
      (entryLine env (DIRECTION_CONFIG direction)) t ts logs0
    constructor
    · simp [handleConversion, hts, h2]
    · simp only [handleConversion, hts, List.isEmpty_cons, Bool.false_eq_true,
        if_false, h2, Bool.true_eq_false]
      exact hfold.trans hlog
  · refine ⟨?_, ?_, ?_, ?_⟩ <;> decide

/-- Closed instance of `handleConversion_partial_failure_isolation` at the
concrete 3-file batch, discharging the non-empty-match and
permission-granted hypotheses. -/
theorem handleConversion_partial_failure_isolation_witness :
    (handleConversion batchEnv batchImages .pngToWebp []).status =
      some "変換が完了しました。" ∧
    (handleConversion batchEnv batchImages .pngToWebp []).logs =
      (((batchImages.filter fun file : ImageEntry =>
          hasExtension file.name (DIRECTION_CONFIG .pngToWebp).sourceExt).map
        (entryLine batchEnv (DIRECTION_CONFIG .pngToWebp))).reverse ++ []).take 20 :=
  handleConversion_partial_failure_isolation.1 batchEnv batchImages .pngToWebp []
    (by decide) (by decide)

/-- Closed instance of `handleConversion_denied_touches_nothing`: one
matched PNG file, a handle whose query reports denied. -/
theorem handleConversion_denied_touches_nothing_witness :
    (handleConversion
        { batchEnv with handle := ⟨some fun _ => .denied, some fun _ => .granted⟩ }
        batchImages .pngToWebp ["old"]).status =
      some "書き込み権限を付与してください。" ∧
    (handleConversion
        { batchEnv with handle := ⟨some fun _ => .denied, some fun _ => .granted⟩ }
        batchImages .pngToWebp ["old"]).logs = ["old"] ∧
    countReads (handleConversion
        { batchEnv with handle := ⟨some fun _ => .denied, some fun _ => .granted⟩ }
        batchImages .pngToWebp ["old"]).effects = 0 ∧
    countWrites (handleConversion
        { batchEnv with handle := ⟨some fun _ => .denied, some fun _ => .granted⟩ }
        batchImages .pngToWebp ["old"]).effects = 0 :=
  handleConversion_denied_touches_nothing
    { batchEnv with handle := ⟨some fun _ => .denied, some fun _ => .granted⟩ }
    batchImages .pngToWebp ["old"] (by decide) (by decide)

/-- Closed instance of `handleConversion_no_targets`: an empty inventory
makes every direction stop at the no-targets status with no effects. -/
theorem handleConversion_no_targets_witness :
    (handleConversion batchEnv [] .webpToPng ["old"]).status =
      some "対象ファイルが見つかりませんでした。" ∧
    (handleConversion batchEnv [] .webpToPng ["old"]).logs = ["old"] ∧
    (handleConversion batchEnv [] .webpToPng ["old"]).effects = [] :=
  handleConversion_no_targets batchEnv [] .webpToPng ["old"] (by decide)

end FsWebp
